import Mathlib

/-!
Verification of the DSA repository's N-dimensional array offset calculator
(src/arrays/array_address_rust/array_add.rs) and its binary search
(src/arrays/binary_s_rust/bs.rs).

The Rust functions return `base.add(offset)`; the embedding drops the opaque
base pointer and returns the element offset itself.  Slice indexing that can
panic is modelled with `Option`: `none` stands for a Rust index-out-of-bounds
panic.  The Rust `for` loops are translated into structural recursions over
the loop counter; where the Rust loop runs over a reversed range the
recursion processes the same iterations in the same (reversed) order.
-/

/-- Inner multiplier loop of the N-dimensional routines: the product of
`dimensions[lo..lo+cnt)`, or `none` when some access is out of bounds
(`multiplier *= dimensions[next_dim]` panicking in Rust).  The column-major
routine runs this loop over the reversed range; the product of the same
factors is unchanged, so one definition serves both routines. -/
def prodRange (dimensions : List Nat) (lo cnt : Nat) : Option Nat :=
  match cnt with
  | 0 => some 1
  | c + 1 => do
    let d ← dimensions[lo]?
    let rest ← prodRange dimensions (lo + 1) c
    pure (d * rest)

/-- Outer loop of `calculate_nd_row_major`: the terms for
`dim, dim+1, ..., dim+cnt-1` of the sum
`offset += indices[dim] * multiplier`, where `n = indices.len()` fixes the
upper bound of the inner multiplier loop. -/
def rmTerms (indices dimensions : List Nat) (n dim cnt : Nat) : Option Nat :=
  match cnt with
  | 0 => some 0
  | c + 1 => do
    let mult ← prodRange dimensions (dim + 1) (n - (dim + 1))
    let i ← indices[dim]?
    let rest ← rmTerms indices dimensions n (dim + 1) c
    pure (i * mult + rest)

/-- `calculate_nd_row_major` from array_add.rs (lines 103-119): for
`dim in 0..n` accumulate `indices[dim]` times the product of
`dimensions[dim+1..n)`, with `n = indices.len()`. -/
def calculate_nd_row_major (indices dimensions : List Nat) : Option Nat :=
  rmTerms indices dimensions indices.length 0 indices.length

/-- Outer loop of `calculate_nd_col_major`: the terms for
`cnt-1, cnt-2, ..., 0`, processed in that (reversed) order exactly as the
Rust loop `for dim in (0..n).rev()` does.  The inner multiplier loop of the
Rust code runs over `(dim+1..n).rev()`; its product is `prodRange`. -/
def cmTerms (indices dimensions : List Nat) (n cnt : Nat) : Option Nat :=
  match cnt with
  | 0 => some 0
  | c + 1 => do
    let mult ← prodRange dimensions (c + 1) (n - (c + 1))
    let i ← indices[c]?
    let rest ← cmTerms indices dimensions n c
    pure (i * mult + rest)

/-- `calculate_nd_col_major` from array_add.rs (lines 131-147): for
`dim in (0..n).rev()` accumulate `indices[dim]` times the product of
`dimensions[dim+1..n)` (the inner loop `for prev_dim in (dim + 1..n).rev()`),
with `n = indices.len()`. -/
def calculate_nd_col_major (indices dimensions : List Nat) : Option Nat :=
  cmTerms indices dimensions indices.length indices.length

/-- `calculate_3d_col_major` from array_add.rs (lines 81-91):
`offset = (k * rows * cols) + (j * rows) + i`. -/
def calculate_3d_col_major (i j k rows cols : Nat) : Nat :=
  k * rows * cols + j * rows + i

/-- The spec's row-major formula:
`offset = Σ_{d=0}^{D-1} indices[d] × Π_{d'=d+1}^{D-1} shape[d']`. -/
def specRowMajorOffset (shape indices : List Nat) : Nat :=
  ∑ d ∈ Finset.range shape.length, indices.getD d 0 * (shape.drop (d + 1)).prod

/-- The spec's column-major formula (left-to-right accumulation with
`multiplier *= shape[d]` after axis `d`):
`offset = Σ_{d=0}^{D-1} indices[d] × Π_{d'=0}^{d-1} shape[d']`. -/
def specColMajorOffset (shape indices : List Nat) : Nat :=
  ∑ d ∈ Finset.range shape.length, indices.getD d 0 * (shape.take d).prod

/-- Pure value of the row-major accumulation on aligned lists: the head index
times the product of the remaining extents, plus the offset of the tail. -/
def rowVal : List Nat → List Nat → Nat
  | [], _ => 0
  | _ :: _, [] => 0
  | i :: is, _ :: ss => i * ss.prod + rowVal is ss

/-- Pure value of the first `cnt` terms accumulated by the column-major
routine (`indices[d]` times the product of `dimensions[d+1..n)`). -/
def cmVal (indices dimensions : List Nat) (n : Nat) : Nat → Nat
  | 0 => 0
  | c + 1 =>
    indices.getD c 0 * ((dimensions.drop (c + 1)).take (n - (c + 1))).prod
      + cmVal indices dimensions n c

/-- Mixed-radix decoding: the row-major index vector of a flat offset. -/
def unrank : List Nat → Nat → List Nat
  | [], _ => []
  | _ :: ss, k => k / ss.prod :: unrank ss (k % ss.prod)

/-- Outcome of a run of the Rust `binary_search`: `found i` for `Some(i)`,
`notFound` for `None`, and `panicked` for a run that panics (in debug builds
the `usize` underflow of `high = mid - 1` at `mid = 0`; in release builds the
wrap to `usize::MAX` followed by an out-of-bounds index). -/
inductive SearchResult where
  | found : Nat → SearchResult
  | notFound : SearchResult
  | panicked : SearchResult
  deriving DecidableEq

/-- The `while low <= high` loop of `binary_search` from bs.rs (lines 19-28).
`mid = low + (high - low) / 2`; on `Equal` return `found mid`, on `Less` set
`low = mid + 1`, on `Greater` set `high = mid - 1`, which underflows the
unsigned index type when `mid = 0` (modelled as `panicked`). -/
def bsLoop (arr : List Int) (target : Int) (low high : Nat) : SearchResult :=
  if hlh : low ≤ high then
    let mid := low + (high - low) / 2
    match arr[mid]? with
    | none => SearchResult.panicked
    | some v =>
      if v = target then SearchResult.found mid
      else if v < target then bsLoop arr target (mid + 1) high
      else if hz : mid = 0 then SearchResult.panicked
      else bsLoop arr target low (mid - 1)
  else SearchResult.notFound
termination_by high + 1 - low
decreasing_by
  · omega
  · omega

/-- `binary_search` from bs.rs (lines 15-30): `high = arr.len() - 1` with
`checked_sub`, so the empty slice returns `None` before the loop runs. -/
def binary_search (arr : List Int) (target : Int) : SearchResult :=
  if arr.length = 0 then SearchResult.notFound
  else bsLoop arr target 0 (arr.length - 1)

/-! ### Helper lemmas for the loop recursions -/

lemma prodRange_eq_some (dimensions : List Nat) :
    ∀ cnt lo, lo + cnt ≤ dimensions.length →
      prodRange dimensions lo cnt = some ((dimensions.drop lo).take cnt).prod := by
  intro cnt
  induction cnt with
  | zero => intro lo hlo; simp [prodRange]
  | succ c IH =>
    intro lo hlo
    have hlt : lo < dimensions.length := by omega
    have hcons : dimensions.drop lo = dimensions[lo] :: dimensions.drop (lo + 1) :=
      List.drop_eq_getElem_cons hlt
    rw [prodRange, List.getElem?_eq_getElem hlt, IH (lo + 1) (by omega),
      hcons, List.take_succ_cons, List.prod_cons]
    rfl

lemma prodRange_eq_none (dimensions : List Nat) :
    ∀ cnt lo, 0 < cnt → dimensions.length < lo + cnt →
      prodRange dimensions lo cnt = none := by
  intro cnt
  induction cnt with
  | zero => omega
  | succ c IH =>
    intro lo _ hlo
    by_cases hlt : lo < dimensions.length
    · have hc : 0 < c := by omega
      rw [prodRange, List.getElem?_eq_getElem hlt, IH (lo + 1) hc (by omega)]
      rfl
    · rw [prodRange, List.getElem?_eq_none (by omega)]
      rfl

lemma rmTerms_eq_some (indices dimensions : List Nat) (n : Nat)
    (hn : n = indices.length) (hd : n ≤ dimensions.length) :
    ∀ cnt dim, dim + cnt = n →
      rmTerms indices dimensions n dim cnt
        = some (rowVal (indices.drop dim) ((dimensions.take n).drop dim)) := by
  intro cnt
  induction cnt with
  | zero =>
    intro dim hdim
    have h1 : indices.drop dim = [] := by
      rw [List.drop_eq_nil_iff]
      omega
    rw [rmTerms, h1]
    rfl
  | succ c IH =>
    intro dim hdim
    have hdi : dim < indices.length := by omega
    have hdt : dim < (dimensions.take n).length := by
      rw [List.length_take]
      omega
    have hmult : prodRange dimensions (dim + 1) (n - (dim + 1))
        = some ((dimensions.drop (dim + 1)).take (n - (dim + 1))).prod :=
      prodRange_eq_some dimensions _ _ (by omega)
    rw [rmTerms, hmult, List.getElem?_eq_getElem hdi, IH (dim + 1) (by omega)]
    have hic : indices.drop dim = indices[dim] :: indices.drop (dim + 1) :=
      List.drop_eq_getElem_cons hdi
    have htc : (dimensions.take n).drop dim
        = (dimensions.take n)[dim] :: (dimensions.take n).drop (dim + 1) :=
      List.drop_eq_getElem_cons hdt
    have hdt2 : (dimensions.take n).drop (dim + 1)
        = (dimensions.drop (dim + 1)).take (n - (dim + 1)) := by
      rw [List.drop_take]
    rw [hic, htc, rowVal, hdt2]
    rfl

lemma cmTerms_eq_some (indices dimensions : List Nat) (n : Nat)
    (hn : n ≤ indices.length) (hd : n ≤ dimensions.length) :
    ∀ cnt, cnt ≤ n →
      cmTerms indices dimensions n cnt = some (cmVal indices dimensions n cnt) := by
  intro cnt
  induction cnt with
  | zero => intro hcnt; rfl
  | succ c IH =>
    intro hcnt
    have hci : c < indices.length := by omega
    have hmult : prodRange dimensions (c + 1) (n - (c + 1))
        = some ((dimensions.drop (c + 1)).take (n - (c + 1))).prod :=
      prodRange_eq_some dimensions _ _ (by omega)
    rw [cmTerms, hmult, List.getElem?_eq_getElem hci, IH (by omega)]
    rw [cmVal, List.getD_eq_getElem _ _ hci]
    rfl

/-- Accumulating the column-major terms in reverse outer-loop order yields the
same value as the row-major accumulation over the aligned prefix of
`dimensions`. -/
lemma rowVal_eq_cmVal (indices dimensions : List Nat) (n : Nat)
    (hn : n = indices.length) (hd : n ≤ dimensions.length) :
    ∀ cnt, cnt ≤ n →
      rowVal indices (dimensions.take n)
        = cmVal indices dimensions n cnt
            + rowVal (indices.drop cnt) ((dimensions.take n).drop cnt) := by
  intro cnt
  induction cnt with
  | zero => simp [cmVal]
  | succ c IH =>
    intro hcnt
    have hci : c < indices.length := by omega
    have hct : c < (dimensions.take n).length := by
      rw [List.length_take]
      omega
    have hic : indices.drop c = indices[c] :: indices.drop (c + 1) :=
      List.drop_eq_getElem_cons hci
    have htc : (dimensions.take n).drop c
        = (dimensions.take n)[c] :: (dimensions.take n).drop (c + 1) :=
      List.drop_eq_getElem_cons hct
    have hdt2 : (dimensions.take n).drop (c + 1)
        = (dimensions.drop (c + 1)).take (n - (c + 1)) := by
      rw [List.drop_take]
    rw [IH (by omega), hic, htc, rowVal, cmVal, List.getD_eq_getElem _ _ hci, hdt2]
    ring

/-- When `indices.len() ≤ dimensions.len()`, the row-major routine completes
and returns the aligned row-major value. -/
lemma nd_row_major_eq_rowVal (indices dimensions : List Nat)
    (h : indices.length ≤ dimensions.length) :
    calculate_nd_row_major indices dimensions
      = some (rowVal indices (dimensions.take indices.length)) := by
  have := rmTerms_eq_some indices dimensions indices.length rfl h indices.length 0
    (by omega)
  simpa [calculate_nd_row_major] using this

/-- When `indices.len() ≤ dimensions.len()`, the column-major routine
completes and returns the same aligned row-major value: its multiplier loop
multiplies `dimensions[dim+1..n)`, exactly as the row-major routine does. -/
lemma nd_col_major_eq_rowVal (indices dimensions : List Nat)
    (h : indices.length ≤ dimensions.length) :
    calculate_nd_col_major indices dimensions
      = some (rowVal indices (dimensions.take indices.length)) := by
  rw [calculate_nd_col_major,
    cmTerms_eq_some indices dimensions indices.length le_rfl h indices.length le_rfl]
  have := rowVal_eq_cmVal indices dimensions indices.length rfl h indices.length le_rfl
  rw [List.drop_length] at this
  simp [rowVal] at this
  rw [this]

/-- With at least two indices and too few dimensions, the row-major routine
panics: its first outer iteration already reads `dimensions[n-1]`. -/
lemma nd_row_major_none (indices dimensions : List Nat)
    (h2 : 2 ≤ indices.length) (hlt : dimensions.length < indices.length) :
    calculate_nd_row_major indices dimensions = none := by
  obtain ⟨m, hm⟩ : ∃ m, indices.length = m + 2 := ⟨indices.length - 2, by omega⟩
  rw [calculate_nd_row_major]
  conv_lhs => rw [hm]
  rw [rmTerms, prodRange_eq_none dimensions (m + 2 - (0 + 1)) (0 + 1)
    (by omega) (by omega)]
  rfl

/-- The column-major outer loop eventually reaches an iteration whose inner
multiplier loop reads an out-of-bounds dimension, so it panics as well. -/
lemma cmTerms_none (indices dimensions : List Nat) (n : Nat)
    (h2 : 2 ≤ n) (hn : n ≤ indices.length) (hlt : dimensions.length < n) :
    ∀ cnt, 1 ≤ cnt → cnt ≤ n →
      cmTerms indices dimensions n cnt = none := by
  intro cnt
  induction cnt with
  | zero => omega
  | succ c IH =>
    intro _ hcn
    by_cases hcase : c + 1 < n
    · rw [cmTerms, prodRange_eq_none dimensions (n - (c + 1)) (c + 1)
        (by omega) (by omega)]
      rfl
    · have hceq : c + 1 = n := by omega
      have hci : c < indices.length := by omega
      have hzero : n - (c + 1) = 0 := by omega
      rw [cmTerms, hzero, prodRange, List.getElem?_eq_getElem hci,
        IH (by omega) (by omega)]
      rfl

/-- With at least two indices and too few dimensions, the column-major
routine panics. -/
lemma nd_col_major_none (indices dimensions : List Nat)
    (h2 : 2 ≤ indices.length) (hlt : dimensions.length < indices.length) :
    calculate_nd_col_major indices dimensions = none := by
  rw [calculate_nd_col_major]
  exact cmTerms_none indices dimensions indices.length h2 le_rfl hlt
    indices.length (by omega) le_rfl

/-! ### The pure row-major value: spec formula, range, bijectivity -/

/-- On lists of equal length the structural row-major value is exactly the
spec's sum `Σ_d indices[d] × Π shape[d+1..D)`. -/
lemma rowVal_eq_specRowMajorOffset :
    ∀ indices shape : List Nat, indices.length = shape.length →
      rowVal indices shape = specRowMajorOffset shape indices := by
  intro indices
  induction indices with
  | nil =>
    intro shape hlen
    have : shape = [] := by
      cases shape with
      | nil => rfl
      | cons s ss => simp at hlen
    subst this
    simp [rowVal, specRowMajorOffset]
  | cons i is IH =>
    intro shape hlen
    cases shape with
    | nil => simp at hlen
    | cons s ss =>
      have hlen2 : is.length = ss.length := by
        simpa using hlen
      rw [rowVal, IH ss hlen2]
      rw [specRowMajorOffset, specRowMajorOffset, List.length_cons,
        Finset.sum_range_succ']
      simp only [List.getD_cons_succ, List.getD_cons_zero, List.drop_succ_cons,
        List.drop_zero]
      ring

/-- Valid indices give a row-major value below the total element count. -/
lemma rowVal_lt_prod :
    ∀ {indices shape : List Nat}, List.Forall₂ (· < ·) indices shape →
      rowVal indices shape < shape.prod := by
  intro indices shape h
  induction h with
  | nil => simp [rowVal]
  | @cons i s is ss his _ IH =>
    rw [rowVal, List.prod_cons]
    calc i * ss.prod + rowVal is ss < i * ss.prod + ss.prod := by omega
    _ = (i + 1) * ss.prod := by ring
    _ ≤ s * ss.prod := Nat.mul_le_mul_right _ (by omega)

/-- Decoding a flat offset below the total count yields valid indices. -/
lemma forall₂_unrank :
    ∀ (shape : List Nat) (k : Nat), k < shape.prod →
      List.Forall₂ (· < ·) (unrank shape k) shape := by
  intro shape
  induction shape with
  | nil => intro k hk; exact List.Forall₂.nil
  | cons s ss IH =>
    intro k hk
    rw [List.prod_cons] at hk
    have hpos : 0 < ss.prod := by
      rcases Nat.eq_zero_or_pos ss.prod with h0 | h
      · rw [h0, Nat.mul_zero] at hk
        omega
      · exact h
    refine List.Forall₂.cons ?_ (IH _ (Nat.mod_lt _ hpos))
    exact Nat.div_lt_of_lt_mul (by rwa [Nat.mul_comm] at hk)

/-- Decoding then encoding gives the offset back. -/
lemma rowVal_unrank :
    ∀ (shape : List Nat) (k : Nat), k < shape.prod →
      rowVal (unrank shape k) shape = k := by
  intro shape
  induction shape with
  | nil =>
    intro k hk
    simp at hk
    simp [unrank, rowVal, hk]
  | cons s ss IH =>
    intro k hk
    rw [List.prod_cons] at hk
    have hpos : 0 < ss.prod := by
      rcases Nat.eq_zero_or_pos ss.prod with h0 | h
      · rw [h0, Nat.mul_zero] at hk
        omega
      · exact h
    rw [unrank, rowVal, IH _ (Nat.mod_lt _ hpos), Nat.mul_comm]
    exact Nat.div_add_mod k ss.prod

/-- Encoding then decoding gives the index vector back. -/
lemma unrank_rowVal :
    ∀ {indices shape : List Nat}, List.Forall₂ (· < ·) indices shape →
      unrank shape (rowVal indices shape) = indices := by
  intro indices shape h
  induction h with
  | nil => rfl
  | @cons i s is ss his htail IH =>
    have hrest : rowVal is ss < ss.prod := rowVal_lt_prod htail
    have hpos : 0 < ss.prod := by omega
    rw [rowVal, unrank]
    have hdiv : (i * ss.prod + rowVal is ss) / ss.prod = i := by
      rw [Nat.add_comm, Nat.add_mul_div_right _ _ hpos,
        Nat.div_eq_of_lt hrest]
      omega
    have hmod : (i * ss.prod + rowVal is ss) % ss.prod = rowVal is ss := by
      rw [Nat.add_comm, Nat.add_mul_mod_self_right, Nat.mod_eq_of_lt hrest]
    rw [hdiv, hmod, IH]

/-! ### Claims -/

/-- Claim C1: the spec's column-major algorithm (left-to-right accumulation,
`offset += indices[d] * multiplier; multiplier *= shape[d]`) is what the
3D column-major function computes, but not what `calculate_nd_col_major`
computes.  At indices `(1,0,0)` with dimensions `(2,3,4)` the left-to-right
accumulation — and `calculate_3d_col_major` with `rows = 2`, `cols = 3` —
give offset `1`, while `calculate_nd_col_major` returns `12`, which is the
row-major offset `1*(3*4)`: its multiplier loop runs over
`dimensions[dim+1..n)` instead of `dimensions[0..dim)`. -/
theorem nd_col_major_spec_divergence :
    calculate_nd_col_major [1, 0, 0] [2, 3, 4] = some 12
      ∧ calculate_3d_col_major 1 0 0 2 3 = 1
      ∧ specColMajorOffset [2, 3, 4] [1, 0, 0] = 1 := by
  refine ⟨by decide, rfl, by decide⟩

/-- Claim C2: on equal-length inputs, `calculate_nd_row_major` returns
exactly the spec's row-major sum
`Σ_{d=0}^{D-1} indices[d] × Π_{d'=d+1}^{D-1} shape[d']`. -/
theorem nd_row_major_eq_spec_sum (indices shape : List Nat)
    (hlen : indices.length = shape.length) :
    calculate_nd_row_major indices shape
      = some (specRowMajorOffset shape indices) := by
  rw [nd_row_major_eq_rowVal indices shape (le_of_eq hlen), hlen,
    List.take_length, rowVal_eq_specRowMajorOffset indices shape hlen]

/-- Witness for C2 at shape `(3,4)`, indices `(1,2)`: both sides are `6`. -/
theorem nd_row_major_eq_spec_sum_witness :
    calculate_nd_row_major [1, 2] [3, 4] = some 6
      ∧ specRowMajorOffset [3, 4] [1, 2] = 6 := by
  refine ⟨?_, by decide⟩
  rw [nd_row_major_eq_spec_sum [1, 2] [3, 4] rfl]
  decide

/-- Claim C3: the claimed symmetry "column-major over `(shape, indices)`
equals row-major over `(reverse shape, reverse indices)`" fails on the code:
for shape `(2,3)` and indices `(1,0)`, `calculate_nd_col_major` gives `3`
(it computes the un-reversed row-major offset `1*3 + 0`), while
`calculate_nd_row_major` over the reversed pair gives `1`. -/
theorem col_row_reversal_symmetry_fails :
    calculate_nd_col_major [1, 0] [2, 3] = some 3
      ∧ List.reverse [2, 3] = [3, 2] ∧ List.reverse [1, 0] = [0, 1]
      ∧ calculate_nd_row_major [0, 1] [3, 2] = some 1 := by
  refine ⟨by decide, rfl, rfl, by decide⟩

/-- Claim C4: for valid inputs (equal rank, positive extents, every index
below its extent) both N-dimensional routines return an offset, and it is
below the total element count `Π shape[d]`. -/
theorem valid_offset_lt_total (indices shape : List Nat)
    (hpos : ∀ s ∈ shape, 0 < s)
    (hvalid : List.Forall₂ (· < ·) indices shape) :
    ∃ offset, calculate_nd_row_major indices shape = some offset
      ∧ calculate_nd_col_major indices shape = some offset
      ∧ offset < shape.prod := by
  have hlen : indices.length = shape.length := hvalid.length_eq
  refine ⟨rowVal indices shape, ?_, ?_, rowVal_lt_prod hvalid⟩
  · rw [nd_row_major_eq_rowVal indices shape (le_of_eq hlen), hlen,
      List.take_length]
  · rw [nd_col_major_eq_rowVal indices shape (le_of_eq hlen), hlen,
      List.take_length]

/-- Witness for C4 at shape `(2,3)`, indices `(1,2)`. -/
theorem valid_offset_lt_total_witness :
    ∃ offset, calculate_nd_row_major [1, 2] [2, 3] = some offset
      ∧ calculate_nd_col_major [1, 2] [2, 3] = some offset
      ∧ offset < ([2, 3] : List Nat).prod :=
  valid_offset_lt_total [1, 2] [2, 3] (by decide)
    (List.Forall₂.cons (by decide)
      (List.Forall₂.cons (by decide) List.Forall₂.nil))

/-- Claim C6: the spec's 4D example states offset `51` for shape
`(2,3,4,2)`, indices `(1,2,3,1)`; the code does not return `51`. -/
theorem four_d_row_major_not_51 :
    calculate_nd_row_major [1, 2, 3, 1] [2, 3, 4, 2] ≠ some 51 := by
  decide

/-- Claim C6 (amended): the row-major offset for shape `(2,3,4,2)`, indices
`(1,2,3,1)` is `1*24 + 2*8 + 3*2 + 1 = 47`. -/
theorem four_d_row_major_example :
    calculate_nd_row_major [1, 2, 3, 1] [2, 3, 4, 2] = some 47 := by
  decide

/-- Claim C7: no rank check exists — with `indices` of length 2 and
`dimensions` of length 3 both routines return the offset `7`, not an error
value. -/
theorem rank_mismatch_not_detected :
    calculate_nd_row_major [1, 2] [5, 5, 5] = some 7
      ∧ calculate_nd_col_major [1, 2] [5, 5, 5] = some 7 := by
  refine ⟨by decide, by decide⟩

/-- Claim C7 (amended): on rank mismatch with `indices.len() ≤
dimensions.len()` the routines return an ordinary offset (computed over the
first `indices.len()` axes); no `RankMismatch` error is produced. -/
theorem rank_mismatch_returns_offset (indices dimensions : List Nat)
    (hne : indices.length ≠ dimensions.length)
    (hle : indices.length ≤ dimensions.length) :
    ∃ offset, calculate_nd_row_major indices dimensions = some offset
      ∧ calculate_nd_col_major indices dimensions = some offset :=
  ⟨rowVal indices (dimensions.take indices.length),
    nd_row_major_eq_rowVal indices dimensions hle,
    nd_col_major_eq_rowVal indices dimensions hle⟩

/-- Witness for the amended C7 at `indices = (1,2)`,
`dimensions = (5,5,5)`. -/
theorem rank_mismatch_returns_offset_witness :
    ∃ offset, calculate_nd_row_major [1, 2] [5, 5, 5] = some offset
      ∧ calculate_nd_col_major [1, 2] [5, 5, 5] = some offset :=
  rank_mismatch_returns_offset [1, 2] [5, 5, 5] (by decide) (by decide)

/-- Claim C8: on equal-length inputs the two N-dimensional routines are
pointwise equal — the column-major routine merely adds the same
`indices[dim] × Π dimensions[dim+1..n)` terms in reverse order. -/
theorem nd_col_major_eq_nd_row_major (indices dimensions : List Nat)
    (hlen : indices.length = dimensions.length) :
    calculate_nd_col_major indices dimensions
      = calculate_nd_row_major indices dimensions := by
  rw [nd_col_major_eq_rowVal indices dimensions (le_of_eq hlen),
    nd_row_major_eq_rowVal indices dimensions (le_of_eq hlen)]

/-- Witness for C8 at the program's own 4D demonstration input. -/
theorem nd_col_major_eq_nd_row_major_witness :
    calculate_nd_col_major [1, 2, 3, 1] [2, 3, 4, 2]
      = calculate_nd_row_major [1, 2, 3, 1] [2, 3, 4, 2] :=
  nd_col_major_eq_nd_row_major [1, 2, 3, 1] [2, 3, 4, 2] rfl

/-- The pure row-major value is a bijection from valid index vectors onto
`[0, Π shape[d])`. -/
lemma rowVal_bijOn (shape : List Nat) :
    Set.BijOn (fun indices => rowVal indices shape)
      {indices | List.Forall₂ (· < ·) indices shape} (Set.Iio shape.prod) := by
  refine ⟨?_, ?_, ?_⟩
  · intro idx hidx
    exact Set.mem_Iio.mpr (rowVal_lt_prod hidx)
  · intro a ha b hb hab
    have hab2 : rowVal a shape = rowVal b shape := hab
    calc a = unrank shape (rowVal a shape) := (unrank_rowVal ha).symm
    _ = unrank shape (rowVal b shape) := by rw [hab2]
    _ = b := unrank_rowVal hb
  · intro k hk
    have hk2 : k < shape.prod := Set.mem_Iio.mp hk
    exact ⟨unrank shape k, forall₂_unrank shape k hk2, rowVal_unrank shape k hk2⟩

/-- Claim C5: for a fixed shape with positive extents, each routine's map
from valid index vectors to computed offsets is a bijection onto
`[0, Π shape[d])`. -/
theorem offset_map_bijOn (shape : List Nat) (hpos : ∀ s ∈ shape, 0 < s) :
    Set.BijOn (fun indices => (calculate_nd_row_major indices shape).getD 0)
        {indices | List.Forall₂ (· < ·) indices shape} (Set.Iio shape.prod)
      ∧ Set.BijOn (fun indices => (calculate_nd_col_major indices shape).getD 0)
        {indices | List.Forall₂ (· < ·) indices shape} (Set.Iio shape.prod) := by
  have hbij := rowVal_bijOn shape
  constructor
  · refine hbij.congr ?_
    intro idx hidx
    have hlen : idx.length = shape.length :=
      List.Forall₂.length_eq hidx
    show rowVal idx shape = (calculate_nd_row_major idx shape).getD 0
    rw [nd_row_major_eq_rowVal idx shape (le_of_eq hlen), hlen,
      List.take_length, Option.getD_some]
  · refine hbij.congr ?_
    intro idx hidx
    have hlen : idx.length = shape.length :=
      List.Forall₂.length_eq hidx
    show rowVal idx shape = (calculate_nd_col_major idx shape).getD 0
    rw [nd_col_major_eq_rowVal idx shape (le_of_eq hlen), hlen,
      List.take_length, Option.getD_some]

/-- Witness for C5 at shape `(2,3)`. -/
theorem offset_map_bijOn_witness :
    Set.BijOn (fun indices => (calculate_nd_row_major indices [2, 3]).getD 0)
        {indices | List.Forall₂ (· < ·) indices [2, 3]}
        (Set.Iio (([2, 3] : List Nat).prod))
      ∧ Set.BijOn
        (fun indices => (calculate_nd_col_major indices [2, 3]).getD 0)
        {indices | List.Forall₂ (· < ·) indices [2, 3]}
        (Set.Iio (([2, 3] : List Nat).prod)) :=
  offset_map_bijOn [2, 3] (by decide)

/-- Claim C9: the N-dimensional routines perform no rank validation.  They
read only `indices[0..n)` and `dimensions[1..n)` with `n = indices.len()`:
whenever `dimensions.len() ≥ indices.len()` both complete with an offset and
surplus dimension entries are ignored (truncating `dimensions` to the first
`indices.len()` entries changes nothing); whenever `indices.len() ≥ 2` and
`dimensions.len() < indices.len()` both panic on an out-of-bounds dimension
access (modelled as `none`). -/
theorem nd_no_rank_validation (indices dimensions : List Nat) :
    (indices.length ≤ dimensions.length →
      (∃ offset, calculate_nd_row_major indices dimensions = some offset
        ∧ calculate_nd_col_major indices dimensions = some offset)
      ∧ calculate_nd_row_major indices dimensions
          = calculate_nd_row_major indices (dimensions.take indices.length)
      ∧ calculate_nd_col_major indices dimensions
          = calculate_nd_col_major indices (dimensions.take indices.length))
    ∧ (2 ≤ indices.length → dimensions.length < indices.length →
        calculate_nd_row_major indices dimensions = none
        ∧ calculate_nd_col_major indices dimensions = none) := by
  constructor
  · intro hle
    have htlen : indices.length ≤ (dimensions.take indices.length).length := by
      rw [List.length_take]
      omega
    have htake : (dimensions.take indices.length).take indices.length
        = dimensions.take indices.length := by
      rw [List.take_take]
      simp
    refine ⟨⟨rowVal indices (dimensions.take indices.length),
      nd_row_major_eq_rowVal indices dimensions hle,
      nd_col_major_eq_rowVal indices dimensions hle⟩, ?_, ?_⟩
    · rw [nd_row_major_eq_rowVal indices dimensions hle,
        nd_row_major_eq_rowVal indices _ htlen, htake]
    · rw [nd_col_major_eq_rowVal indices dimensions hle,
        nd_col_major_eq_rowVal indices _ htlen, htake]
  · intro h2 hlt
    exact ⟨nd_row_major_none indices dimensions h2 hlt,
      nd_col_major_none indices dimensions h2 hlt⟩

/-- Witness for C9: the success side at `indices = (1,2)`,
`dimensions = (5,5,5)` and the panic side at `indices = (1,2,3)`,
`dimensions = (7)`. -/
theorem nd_no_rank_validation_witness :
    ((∃ offset, calculate_nd_row_major [1, 2] [5, 5, 5] = some offset
        ∧ calculate_nd_col_major [1, 2] [5, 5, 5] = some offset)
      ∧ calculate_nd_row_major [1, 2] [5, 5, 5]
          = calculate_nd_row_major [1, 2]
              (List.take (List.length [1, 2]) [5, 5, 5])
      ∧ calculate_nd_col_major [1, 2] [5, 5, 5]
          = calculate_nd_col_major [1, 2]
              (List.take (List.length [1, 2]) [5, 5, 5]))
    ∧ (calculate_nd_row_major [1, 2, 3] [7] = none
      ∧ calculate_nd_col_major [1, 2, 3] [7] = none) :=
  ⟨(nd_no_rank_validation [1, 2] [5, 5, 5]).1 (by decide),
    (nd_no_rank_validation [1, 2, 3] [7]).2 (by decide) (by decide)⟩

/-- When every element of the array exceeds the target, the loop (entered
with `low = 0`) always takes the `Greater` branch, keeps `low = 0`, and
eventually reaches `mid = 0`, where `high = mid - 1` underflows. -/
lemma bsLoop_all_gt (arr : List Int) (target : Int)
    (hall : ∀ x ∈ arr, target < x) :
    ∀ high, high < arr.length →
      bsLoop arr target 0 high = SearchResult.panicked := by
  intro high
  induction high using Nat.strong_induction_on with
  | _ high IH =>
    intro hh
    have hmean : 0 + (high - 0) / 2 = high / 2 := by omega
    have hmlt : high / 2 < arr.length :=
      lt_of_le_of_lt (Nat.div_le_self high 2) hh
    have hv : target < arr[high / 2] :=
      hall _ (List.getElem_mem hmlt)
    rw [bsLoop, dif_pos (Nat.zero_le high)]
    simp only [hmean, List.getElem?_eq_getElem hmlt]
    rw [if_neg hv.ne', if_neg (lt_asymm hv)]
    by_cases hz : high / 2 = 0
    · rw [dif_pos hz]
    · rw [dif_neg hz]
      have h2 : 1 ≤ high / 2 := by omega
      have hle : high / 2 ≤ high := Nat.div_le_self high 2
      exact IH (high / 2 - 1) (by omega) (by omega)

/-- Claim C10: on a non-empty ascending-sorted array with target strictly
below the first element, `binary_search` does not return `None`: it reaches
`mid = 0` in the `Greater` branch and `high = mid - 1` underflows the
unsigned index (a debug-build panic; in release the wrap to `usize::MAX`
makes the next `arr[mid]` access panic out of bounds). -/
theorem binary_search_below_min_panics (arr : List Int) (target : Int)
    (hne : arr ≠ []) (hsorted : List.Sorted (· ≤ ·) arr)
    (hlt : target < arr.getD 0 0) :
    binary_search arr target = SearchResult.panicked := by
  obtain ⟨a, as, rfl⟩ := List.exists_cons_of_ne_nil hne
  rw [List.getD_cons_zero] at hlt
  rw [List.sorted_cons] at hsorted
  have hall : ∀ x ∈ a :: as, target < x := by
    intro x hx
    rcases List.mem_cons.mp hx with rfl | hx2
    · exact hlt
    · exact lt_of_lt_of_le hlt (hsorted.1 x hx2)
  rw [binary_search, if_neg (by simp)]
  exact bsLoop_all_gt _ _ hall _ (by simp)

/-- Witness for C10 at the sorted array `[5, 7]` with target `3`. -/
theorem binary_search_below_min_panics_witness :
    ([5, 7] : List Int) ≠ []
      ∧ List.Sorted (· ≤ ·) ([5, 7] : List Int)
      ∧ (3 : Int) < ([5, 7] : List Int).getD 0 0
      ∧ binary_search [5, 7] 3 = SearchResult.panicked := by
  refine ⟨by decide, by decide, by decide, ?_⟩
  exact binary_search_below_min_panics [5, 7] 3 (by decide) (by decide)
    (by decide)
